import Mathlib

set_option maxRecDepth 100000

/-!
Shallow embedding of the JA4 EdgeWorker (src/util.js, src/main.js).

Byte buffers are `List Nat` (each element a byte value 0–255 as produced by
`atob`/`charCodeAt`). `DataView.getUint8/getUint16` become fallible reads that
return `Except JsErr Nat`, erroring (as the JS RangeError) when the read would
cross the end of the buffer. JavaScript strings/numbers are Lean `String`/`Nat`
with helper functions mirroring `Number.prototype.toString(16)`,
`String.prototype.padStart`, and `Array.prototype.sort`.
-/

/-- Errors a stage of the pipeline can raise. `rangeError` models the
`RangeError` a `DataView` read throws when it crosses the buffer end;
`invalidCharacterError` models the `InvalidCharacterError` of `atob`;
`fuelOut` is an artifact of the fuel-based extension loop and
is proved unreachable (`parseClientHello_ne_fuelOut`). -/
inductive JsErr where
  | rangeError
  | invalidCharacterError
  | fuelOut
deriving DecidableEq

/-- Model of `String.prototype.padStart(n, c)`: left-pad with `c` up to length `n`
(no-op when the string is already at least `n` long, and never truncates). -/
def padStart (s : String) (n : Nat) (c : Char) : String :=
  String.mk (List.replicate (n - s.length) c) ++ s

/-- Lowercase hexadecimal digit character for `d < 16`. -/
def hexDigit (d : Nat) : Char :=
  Char.ofNat (if d < 10 then 48 + d else 87 + d)

/-- Little-endian base-16 digits of `n`, with explicit fuel (`fuel ≥ n`
suffices; the definition is structural so that it computes by `rfl`). -/
def hexDigitsLE : Nat → Nat → List Nat
  | 0, _ => []
  | fuel + 1, n => if n = 0 then [] else (n % 16) :: hexDigitsLE fuel (n / 16)

/-- Model of `Number.prototype.toString(16)` for a natural number: minimal-width
lowercase hexadecimal, with `"0"` for zero. -/
def jsToString16 (n : Nat) : String :=
  if n = 0 then "0" else String.mk (((hexDigitsLE n n).map hexDigit).reverse)

/-- Rendering `v.toString(16).padStart(4, '0')`, the 4-digit hex rendering used
throughout `getJA4Fingerprint`. -/
def hex4 (v : Nat) : String :=
  padStart (jsToString16 v) 4 '0'

/-- Numeric value of a lowercase hex digit character (inverse of `hexDigit`). -/
def hexCharVal (c : Char) : Nat :=
  if c.toNat ≤ 57 then c.toNat - 48 else c.toNat - 87

/-- Value of a little-endian base-16 digit list. -/
def ofDigitsLE (l : List Nat) : Nat :=
  l.foldr (fun d acc => d + 16 * acc) 0

/-- Value of a big-endian hex string (used to prove `hex4` injective). -/
def natOfHexStr (s : String) : Nat :=
  ofDigitsLE (s.data.reverse.map hexCharVal)

/-! ### SHA-256 (the `crypto.subtle.digest('SHA-256', …)` dependency)

A byte-level SHA-256 over `List Nat`, 32-bit words as `Nat` reduced
`% 2^32`, structural throughout so digests compute inside the kernel. -/

/-- Truncate to a 32-bit word. -/
def w32 (n : Nat) : Nat := n % 4294967296

/-- Rotate a 32-bit word right by `n` bits. -/
def rotr32 (x n : Nat) : Nat := w32 ((x >>> n) ||| (x <<< (32 - n)))

def sha256K : List Nat :=
  [1116352408, 1899447441, 3049323471, 3921009573, 961987163,
   1508970993, 2453635748, 2870763221, 3624381080, 310598401,
   607225278, 1426881987, 1925078388, 2162078206, 2614888103,
   3248222580, 3835390401, 4022224774, 264347078, 604807628,
   770255983, 1249150122, 1555081692, 1996064986, 2554220882,
   2821834349, 2952996808, 3210313671, 3336571891, 3584528711,
   113926993, 338241895, 666307205, 773529912, 1294757372,
   1396182291, 1695183700, 1986661051, 2177026350, 2456956037,
   2730485921, 2820302411, 3259730800, 3345764771, 3516065817,
   3600352804, 4094571909, 275423344, 430227734, 506948616,
   659060556, 883997877, 958139571, 1322822218, 1537002063,
   1747873779, 1955562222, 2024104815, 2227730452, 2361852424,
   2428436474, 2756734187, 3204031479, 3329325298]

def sha256H0 : List Nat :=
  [1779033703, 3144134277, 1013904242, 2773480762,
   1359893119, 2600822924, 528734635, 1541459225]

/-- Big-endian 8-byte rendering of a length-in-bits. -/
def beBytes8 (n : Nat) : List Nat :=
  [(n >>> 56) &&& 255, (n >>> 48) &&& 255, (n >>> 40) &&& 255, (n >>> 32) &&& 255,
   (n >>> 24) &&& 255, (n >>> 16) &&& 255, (n >>> 8) &&& 255, n &&& 255]

/-- Standard SHA-256 message padding. -/
def sha256Pad (msg : List Nat) : List Nat :=
  msg ++ 128 :: List.replicate ((119 - (msg.length % 64)) % 64) 0 ++ beBytes8 (8 * msg.length)

structure Sha256St where
  a : Nat
  b : Nat
  c : Nat
  d : Nat
  e : Nat
  f : Nat
  g : Nat
  hh : Nat

/-- One SHA-256 compression round over a 64-byte block, extending state `H`. -/
def sha256Compress (block : List Nat) (H : List Nat) : List Nat :=
  let word := fun j =>
    (block.getD (4 * j) 0) <<< 24 ||| (block.getD (4 * j + 1) 0) <<< 16 |||
    (block.getD (4 * j + 2) 0) <<< 8 ||| block.getD (4 * j + 3) 0
  let w16 := (List.range 16).map word
  let w := (List.range 48).foldl (fun w i =>
    let t := i + 16
    let s0 := rotr32 (w.getD (t - 15) 0) 7 ^^^ rotr32 (w.getD (t - 15) 0) 18 ^^^ (w.getD (t - 15) 0) >>> 3
    let s1 := rotr32 (w.getD (t - 2) 0) 17 ^^^ rotr32 (w.getD (t - 2) 0) 19 ^^^ (w.getD (t - 2) 0) >>> 10
    w ++ [w32 (s1 + w.getD (t - 7) 0 + s0 + w.getD (t - 16) 0)]) w16
  let st0 : Sha256St := ⟨H.getD 0 0, H.getD 1 0, H.getD 2 0, H.getD 3 0,
                         H.getD 4 0, H.getD 5 0, H.getD 6 0, H.getD 7 0⟩
  let stN := (List.range 64).foldl (fun st t =>
    let S1 := rotr32 st.e 6 ^^^ rotr32 st.e 11 ^^^ rotr32 st.e 25
    let ch := (st.e &&& st.f) ^^^ ((st.e ^^^ 4294967295) &&& st.g)
    let T1 := w32 (st.hh + S1 + ch + sha256K.getD t 0 + w.getD t 0)
    let S0 := rotr32 st.a 2 ^^^ rotr32 st.a 13 ^^^ rotr32 st.a 22
    let maj := (st.a &&& st.b) ^^^ (st.a &&& st.c) ^^^ (st.b &&& st.c)
    let T2 := w32 (S0 + maj)
    ⟨w32 (T1 + T2), st.a, st.b, st.c, w32 (st.d + T1), st.e, st.f, st.g⟩) st0
  [w32 (H.getD 0 0 + stN.a), w32 (H.getD 1 0 + stN.b), w32 (H.getD 2 0 + stN.c),
   w32 (H.getD 3 0 + stN.d), w32 (H.getD 4 0 + stN.e), w32 (H.getD 5 0 + stN.f),
   w32 (H.getD 6 0 + stN.g), w32 (H.getD 7 0 + stN.hh)]

/-- Digest (32 bytes, SHA-256) of a byte sequence. -/
def sha256 (msg : List Nat) : List Nat :=
  let padded := sha256Pad msg
  let final := (List.range (padded.length / 64)).foldl
    (fun H i => sha256Compress ((padded.drop (64 * i)).take 64) H) sha256H0
  (final.map (fun h => [(h >>> 24) &&& 255, (h >>> 16) &&& 255, (h >>> 8) &&& 255, h &&& 255])).flatten

/-- Encoding of one character as UTF-8 bytes (the `TextEncoder` dependency). -/
def utf8EncodeChar (c : Char) : List Nat :=
  let n := c.toNat
  if n < 128 then [n]
  else if n < 2048 then [192 ||| (n >>> 6), 128 ||| (n &&& 63)]
  else if n < 65536 then
    [224 ||| (n >>> 12), 128 ||| ((n >>> 6) &&& 63), 128 ||| (n &&& 63)]
  else
    [240 ||| (n >>> 18), 128 ||| ((n >>> 12) &&& 63), 128 ||| ((n >>> 6) &&& 63), 128 ||| (n &&& 63)]

/-- Encoding of a string as UTF-8 bytes. -/
def utf8Encode (s : String) : List Nat :=
  (s.data.map utf8EncodeChar).flatten

/-- Model of `truncatedHash` from src/util.js: SHA-256 over the UTF-8 encoding, each
byte rendered as 2 lowercase hex digits, joined, first 12 characters. -/
def truncatedHash (data : String) : String :=
  (String.join ((sha256 (utf8Encode data)).map (fun b => padStart (jsToString16 b) 2 '0'))).take 12

/-! ### Fixed tables from src/util.js -/

/-- Model of `TLS_MAPPER`: the string-keyed version table of src/util.js. -/
def TLS_MAPPER (key : String) : Option String :=
  if key = "0x0002" then some "s2"
  else if key = "0x0300" then some "s3"
  else if key = "0x0301" then some "10"
  else if key = "0x0302" then some "11"
  else if key = "0x0303" then some "12"
  else if key = "0x0304" then some "13"
  else none

/-- Model of `GREASE_VALUES`: the 16 reserved GREASE code points. -/
def GREASE_VALUES : List Nat :=
  [0x0a0a, 0x1a1a, 0x2a2a, 0x3a3a, 0x4a4a, 0x5a5a, 0x6a6a,
   0x7a7a, 0x8a8a, 0x9a9a, 0xaaaa, 0xbaba, 0xcaca, 0xdada,
   0xeaea, 0xfafa]

/-- Model of `isPrintableAscii` from src/util.js. -/
def isPrintableAscii (charCode : Nat) : Bool :=
  decide (0x20 ≤ charCode) && decide (charCode ≤ 0x7E)

/-! ### DataView reads -/

/-- Model of `DataView.getUint8`: returns the byte, or throws `RangeError` past the end. -/
def getUint8 (buf : List Nat) (i : Nat) : Except JsErr Nat :=
  if h : i < buf.length then .ok (buf.get ⟨i, h⟩) else .error .rangeError

/-- Model of `DataView.getUint16` (big-endian): two `getUint8`s. -/
def getUint16 (buf : List Nat) (i : Nat) : Except JsErr Nat := do
  let b0 ← getUint8 buf i
  let b1 ← getUint8 buf (i + 1)
  pure (256 * b0 + b1)

/-! ### The ClientHello parser (`getJA4Fingerprint`, lines 68–159) -/

/-- One `for (let i = 0; i < len; i += 2)` loop over 16-bit wire values,
collecting `f v` for each read `v` (`f` performs the GREASE filtering and
any rendering, returning `none` to drop the value). The `remaining`
argument is `len - i`; a final odd byte still triggers a 2-byte read,
exactly as `dataView.getUint16(currentIndex + i)` does in the source. -/
def u16Collect {α : Type} (buf : List Nat) (f : Nat → Option α) (pos : Nat) :
    (remaining : Nat) → Except JsErr (List α)
  | 0 => .ok []
  | 1 => do
    let v ← getUint16 buf pos
    pure (f v).toList
  | remaining + 2 => do
    let v ← getUint16 buf pos
    let rest ← u16Collect buf f (pos + 2) remaining
    pure (match f v with
          | some a => a :: rest
          | none => rest)

/-- Cipher-suite / signature-algorithm collector: drop GREASE, render 4-hex. -/
def greaseFilterHex (v : Nat) : Option String :=
  if v ∈ GREASE_VALUES then none else some (hex4 v)

/-- Supported-versions collector: drop GREASE, keep the numeric value. -/
def greaseFilterVal (v : Nat) : Option Nat :=
  if v ∈ GREASE_VALUES then none else some v

/-- The ALPN branch (lines 120–139 of src/util.js): given the cursor just
past the extension header and the current `alpn` value, compute the new one. -/
def alpnCompute (buf : List Nat) (currentIndex : Nat) (alpn : String) :
    Except JsErr String := do
  let alpnListLength ← getUint16 buf currentIndex
  let alpnOffset := currentIndex + 2
  let alpnEndOffset := alpnOffset + alpnListLength
  if alpnOffset < alpnEndOffset then do
    let protocolLength ← getUint8 buf alpnOffset
    let alpnOffset := alpnOffset + 1
    if 0 < protocolLength then do
      let firstChar ← getUint8 buf alpnOffset
      let lastChar ← getUint8 buf (alpnOffset + protocolLength - 1)
      if isPrintableAscii firstChar && isPrintableAscii lastChar then
        pure (String.mk [Char.ofNat firstChar, Char.ofNat lastChar])
      else
        pure (jsToString16 ((firstChar >>> 4) &&& 0x0F) ++ jsToString16 (lastChar &&& 0x0F))
    else
      pure alpn
  else
    pure alpn

/-- Mutable locals of the extension `while` loop (lines 102–106). -/
structure ExtState where
  extensionsList : List String
  sni : String
  alpn : String
  signatureAlgorithms : List String
  supportedVersions : List Nat
deriving DecidableEq

/-- Loop body for one non-GREASE extension record: push the hex type code,
then dispatch on SNI / ALPN / Supported Versions / Signature Algorithms
(lines 114–157). `currentIndex` is the cursor just past the 4-byte header. -/
def processExt (buf : List Nat) (currentIndex extType : Nat) (st : ExtState) :
    Except JsErr ExtState := do
  let st := { st with extensionsList := st.extensionsList ++ [hex4 extType] }
  if extType = 0x0000 then
    pure { st with sni := "d" }
  else if extType = 0x0010 then do
    let a ← alpnCompute buf currentIndex st.alpn
    pure { st with alpn := a }
  else if extType = 0x002b then do
    let supportedVersionsLength ← getUint8 buf currentIndex
    let vs ← u16Collect buf greaseFilterVal (currentIndex + 1) supportedVersionsLength
    pure { st with supportedVersions := st.supportedVersions ++ vs }
  else if extType = 0x000d then do
    let sigAlgLength ← getUint16 buf currentIndex
    let algs ← u16Collect buf greaseFilterHex (currentIndex + 2) sigAlgLength
    pure { st with signatureAlgorithms := st.signatureAlgorithms ++ algs }
  else
    pure st

/-- The `while (currentIndex < extensionsEndIndex)` loop (lines 109–159).
The loop advances the cursor by at least 4 per iteration, so it terminates;
`fuel` makes the recursion structural, and `parseClientHello` passes
`extensionsLength + 1`, which is proved sufficient
(`parseClientHello_ne_fuelOut`). -/
def extLoop (buf : List Nat) (extensionsEndIndex : Nat) :
    Nat → Nat → ExtState → Except JsErr ExtState
  | 0, _, _ => .error .fuelOut
  | fuel + 1, currentIndex, st =>
    if currentIndex < extensionsEndIndex then do
      let extType ← getUint16 buf currentIndex
      let extLength ← getUint16 buf (currentIndex + 2)
      let currentIndex := currentIndex + 4
      let st' ← if extType ∈ GREASE_VALUES then pure st else processExt buf currentIndex extType st
      extLoop buf extensionsEndIndex fuel (currentIndex + extLength) st'
    else
      .ok st

/-- Structured result of the parsing phase of `getJA4Fingerprint`:
`cipherSuites`/`signatureAlgorithms` hold the GREASE-filtered values already
rendered as 4-digit hex strings in wire order, exactly as the source pushes
them; `supportedVersions` holds GREASE-filtered numeric values. -/
structure ParsedClientHello where
  legacyVersion : Nat
  cipherSuites : List String
  extensionsList : List String
  sni : String
  alpn : String
  signatureAlgorithms : List String
  supportedVersions : List Nat
deriving DecidableEq

/-- The cursor walk of `getJA4Fingerprint` (lines 72–159): skip the 4-byte
handshake header, read the legacy version, skip the 32-byte random, skip the
session id, collect cipher suites, skip compression methods, then run the
extension loop. -/
def parseClientHello (buffer : List Nat) : Except JsErr ParsedClientHello := do
  let currentIndex := 4
  let legacyVersion ← getUint16 buffer currentIndex
  let currentIndex := currentIndex + 34
  let sessionIDLength ← getUint8 buffer currentIndex
  let currentIndex := currentIndex + 1 + sessionIDLength
  let cipherSuitesLength ← getUint16 buffer currentIndex
  let currentIndex := currentIndex + 2
  let cipherSuites ← u16Collect buffer greaseFilterHex currentIndex cipherSuitesLength
  let currentIndex := currentIndex + cipherSuitesLength
  let compressionMethodsLength ← getUint8 buffer currentIndex
  let currentIndex := currentIndex + 1 + compressionMethodsLength
  let extensionsLength ← getUint16 buffer currentIndex
  let currentIndex := currentIndex + 2
  let extensionsEndIndex := currentIndex + extensionsLength
  let st ← extLoop buffer extensionsEndIndex (extensionsLength + 1) currentIndex
    { extensionsList := [], sni := "i", alpn := "00",
      signatureAlgorithms := [], supportedVersions := [] }
  pure { legacyVersion, cipherSuites,
         extensionsList := st.extensionsList, sni := st.sni, alpn := st.alpn,
         signatureAlgorithms := st.signatureAlgorithms,
         supportedVersions := st.supportedVersions }

/-! ### The fingerprint encoder (`getJA4Fingerprint`, lines 161–207)

`Array.prototype.sort` (stable, in JS comparing strings by code units, or
numbers via the given comparator) is modelled by a stable insertion sort. -/

/-- Stable insertion into a list sorted by `le`. -/
def insertLe {α : Type} (le : α → α → Bool) (a : α) : List α → List α
  | [] => [a]
  | b :: bs => if le a b then a :: b :: bs else b :: insertLe le a bs

/-- Stable sort by `le` (the model of `Array.prototype.sort`). -/
def sortLe {α : Type} (le : α → α → Bool) : List α → List α
  | [] => []
  | a :: as => insertLe le a (sortLe le as)

/-- Lexicographic strict comparison of char lists by code point (the order
JS `<` uses on strings; all strings compared here are ASCII). -/
def charListLt : List Char → List Char → Bool
  | _, [] => false
  | [], _ :: _ => true
  | a :: as, b :: bs =>
    if a.toNat < b.toNat then true
    else if b.toNat < a.toNat then false
    else charListLt as bs

/-- JS default string sort order (code-unit lexicographic, non-strict). -/
def strLeB (a b : String) : Bool := !(charListLt b.data a.data)

/-- JS numeric comparator `(a, b) => b - a` (descending). -/
def natGeB (a b : Nat) : Bool := Nat.ble b a

/-- Model of `supportedVersions.sort((a, b) => b - a)[0]`: head of the descending
sort (the numeric maximum of a non-empty list). -/
def highestOf (l : List Nat) : Nat := (sortLe natGeB l).headD 0

/-- Lines 161–165: map the highest supported version if that list is
non-empty, else the mapped legacy version; unmapped values give "00". -/
def ja4Version (p : ParsedClientHello) : String :=
  if 0 < p.supportedVersions.length then
    (TLS_MAPPER ("0x" ++ hex4 (highestOf p.supportedVersions))).getD "00"
  else
    (TLS_MAPPER ("0x" ++ hex4 p.legacyVersion)).getD "00"

/-- Line 168: `cipherSuites.length.toString().padStart(2, '0')`. -/
def ja4NumCiphers (p : ParsedClientHello) : String :=
  padStart (Nat.repr p.cipherSuites.length) 2 '0'

/-- Line 169: `extensionsList.length.toString().padStart(2, '0')`. -/
def ja4NumExtensions (p : ParsedClientHello) : String :=
  padStart (Nat.repr p.extensionsList.length) 2 '0'

/-- Lines 184–187: `ptype`, then the `ja4Base` concatenation. -/
def ja4A (p : ParsedClientHello) (proto : String) : String :=
  (if proto = "quic" then "q" else "t") ++ ja4Version p ++ p.sni
    ++ ja4NumCiphers p ++ ja4NumExtensions p ++ p.alpn

/-- Lines 171–174: sort the cipher hex strings, join with commas, hash. -/
def ja4B (p : ParsedClientHello) : String :=
  truncatedHash (String.intercalate "," (sortLe strLeB p.cipherSuites))

/-- Lines 176–181: drop SNI/ALPN codes, sort, join; append `_` and the
wire-order signature algorithms when present. -/
def ja4ExtHashInput (p : ParsedClientHello) : String :=
  let hashExtensions := sortLe strLeB
    (p.extensionsList.filter (fun ext => !(ext == "0000") && !(ext == "0010")))
  let extensionHashInput := String.intercalate "," hashExtensions
  if 0 < p.signatureAlgorithms.length then
    extensionHashInput ++ ("_" ++ String.intercalate "," p.signatureAlgorithms)
  else
    extensionHashInput

/-- Line 182: hash of the extension-hash input. -/
def ja4C (p : ParsedClientHello) : String :=
  truncatedHash (ja4ExtHashInput p)

/-- Model of `getJA4Fingerprint` (src/util.js): parse, then build
`ja4Base ++ "_" ++ cipherHash ++ "_" ++ extensionHash`. Any error thrown by
a `DataView` read is re-thrown to the caller (the `catch` at line 208
logs and re-throws). -/
def getJA4Fingerprint (buffer : List Nat) (proto : String) : Except JsErr String := do
  let p ← parseClientHello buffer
  pure (ja4A p proto ++ "_" ++ ja4B p ++ "_" ++ ja4C p)

/-! ### Concrete buffers used in witnesses and counterexamples -/

/-- A well-formed ClientHello: legacy version 0x0303, one real cipher 0x1301
plus a GREASE cipher, extensions SNI, ALPN ("h2"), Supported Versions
(GREASE + 0x0304), Signature Algorithms (0x0403, 0x0804). -/
def bufOK : List Nat :=
  [1, 0, 0, 0, 3, 3] ++ List.replicate 32 0 ++
  [0,
   0, 4, 0x13, 0x01, 0x0a, 0x0a,
   1, 0,
   0, 32,
   0, 0, 0, 0,
   0, 0x10, 0, 5, 0, 3, 2, 104, 50,
   0, 0x2b, 0, 5, 4, 0x0a, 0x0a, 3, 4,
   0, 0x0d, 0, 6, 0, 4, 4, 3, 8, 4]

/-- The expected parse of `bufOK`. -/
def pOK : ParsedClientHello :=
  { legacyVersion := 0x0303,
    cipherSuites := ["1301"],
    extensionsList := ["0000", "0010", "002b", "000d"],
    sni := "d",
    alpn := "h2",
    signatureAlgorithms := ["0403", "0804"],
    supportedVersions := [0x0304] }

deriving instance DecidableEq for Except


/-- A ClientHello whose only extension record declares a length (5) that
overruns the enclosing extensions block (declared length 4): structurally
malformed framing. The parser never reads the overrunning payload — the
cursor simply jumps past `extensionsEndIndex` and the loop exits. -/
def bufC1 : List Nat :=
  [1, 0, 0, 0, 3, 3] ++ List.replicate 32 0 ++
  [0,
   0, 2, 0x13, 0x01,
   0,
   0, 4,
   0, 0x2d, 0, 5]

/-- A ClientHello offering 100 (identical, non-GREASE) cipher suites, so the
GREASE-filtered cipher list has 100 entries. -/
def bufC7 : List Nat :=
  [1, 0, 0, 0, 3, 3] ++ List.replicate 32 0 ++
  [0, 0, 200] ++ (List.replicate 100 [0x13, 0x01]).flatten ++
  [0, 0, 0]

/-! ### Base64 decoding (`base64toUint8Array`, src/util.js lines 30–38)

`atob` decodes forgiving base64 to a binary string; `charCodeAt` then turns
each char into its byte value, so the composition is modelled directly as
base64 text → byte list. Invalid input throws `InvalidCharacterError`. -/

/-- Value of one base64 alphabet character. -/
def b64CharVal (c : Char) : Option Nat :=
  let n := c.toNat
  if 65 ≤ n ∧ n ≤ 90 then some (n - 65)
  else if 97 ≤ n ∧ n ≤ 122 then some (n - 71)
  else if 48 ≤ n ∧ n ≤ 57 then some (n + 4)
  else if n = 43 then some 62
  else if n = 47 then some 63
  else none

/-- Map every character through the base64 alphabet, failing on any other. -/
def b64Vals : List Char → Option (List Nat)
  | [] => some []
  | c :: cs => do
    let v ← b64CharVal c
    let rest ← b64Vals cs
    pure (v :: rest)

/-- Reassemble 6-bit groups into bytes (trailing group of 2 or 3 values
yields 1 or 2 bytes). -/
def b64Assemble : List Nat → List Nat
  | v1 :: v2 :: v3 :: v4 :: rest =>
    ((v1 <<< 2) ||| (v2 >>> 4)) :: (((v2 &&& 15) <<< 4) ||| (v3 >>> 2)) ::
      (((v3 &&& 3) <<< 6) ||| v4) :: b64Assemble rest
  | [v1, v2] => [(v1 <<< 2) ||| (v2 >>> 4)]
  | [v1, v2, v3] => [((v1 <<< 2) ||| (v2 >>> 4)), (((v2 &&& 15) <<< 4) ||| (v3 >>> 2))]
  | _ => []

/-- Model of `base64toUint8Array`: strip up to two trailing `=` of a 4-aligned input,
reject a length ≡ 1 (mod 4) or any non-alphabet character, assemble bytes. -/
def base64toUint8Array (base64_string : String) : Except JsErr (List Nat) :=
  let cs := base64_string.data
  let cs := if cs.length % 4 = 0 then
      (if cs.getLast? = some '=' then
        (let cs' := cs.dropLast
         if cs'.getLast? = some '=' then cs'.dropLast else cs')
       else cs)
    else cs
  if cs.length % 4 = 1 then .error .invalidCharacterError
  else
    match b64Vals cs with
    | some vs => .ok (b64Assemble vs)
    | none => .error .invalidCharacterError

/-! ### The orchestrator (`onClientRequest`, src/main.js) -/

/-- The request surface `onClientRequest` touches: the two input variables. -/
structure EWRequest where
  tlsClientHello : Option String
  quicVersion : Option String
deriving DecidableEq

/-- JS truthiness of `request.getVariable(...)` (a string or undefined). -/
def truthyStr : Option String → Bool
  | none => false
  | some s => !(s == "")

/-- Observable outcome of `onClientRequest`: the value returned to the
platform and the final value of `PMUSER_JA4_FINGERPRINT`. -/
structure EWOutcome where
  returned : Option String
  ja4Variable : Option String
deriving DecidableEq

/-- Model of `onClientRequest`: missing/empty ClientHello is a no-op; the base64
decode runs *outside* the `try` block, so a decode error propagates to the
caller; `getJA4Fingerprint` runs inside `try`, so its errors are caught,
logged, and turned into an `undefined` return with the variable unset. -/
def onClientRequest (req : EWRequest) : Except JsErr EWOutcome :=
  if !(truthyStr req.tlsClientHello) then
    .ok { returned := none, ja4Variable := none }
  else do
    let buffer ← base64toUint8Array (req.tlsClientHello.getD "")
    let proto := if truthyStr req.quicVersion then "quic" else "tcp"
    match getJA4Fingerprint buffer proto with
    | .ok fp => .ok { returned := some fp, ja4Variable := some fp }
    | .error _ => .ok { returned := none, ja4Variable := none }

/-! ### Specification-side definitions (for refinement-style comparison) -/

/-- Version table keyed directly on the numeric version, as the spec words
it: 0x0002→"s2", 0x0300→"s3", 0x0301→"10", 0x0302→"11", 0x0303→"12",
0x0304→"13", anything else→"00". Compared against the string-keyed
`TLS_MAPPER` lookup the source performs. -/
def specVersionCode (v : Nat) : String :=
  if v = 0x0002 then "s2"
  else if v = 0x0300 then "s3"
  else if v = 0x0301 then "10"
  else if v = 0x0302 then "11"
  else if v = 0x0303 then "12"
  else if v = 0x0304 then "13"
  else "00"

/-- Invariant relating the extension-loop state before and after a run:
each list only grows by a GREASE-filtered tail (extension types and
signature algorithms by 4-hex renderings of non-GREASE values, supported
versions by non-GREASE values), and the ALPN code only changes if the ALPN
type code "0010" was recorded. -/
def StateEvolves (st st' : ExtState) : Prop :=
  (∃ t, st'.extensionsList = st.extensionsList ++ t ∧
     ∀ s ∈ t, ∃ v, v ∉ GREASE_VALUES ∧ s = hex4 v) ∧
  (∃ t, st'.signatureAlgorithms = st.signatureAlgorithms ++ t ∧
     ∀ s ∈ t, ∃ v, v ∉ GREASE_VALUES ∧ s = hex4 v) ∧
  (∃ t, st'.supportedVersions = st.supportedVersions ++ t ∧
     ∀ v ∈ t, v ∉ GREASE_VALUES) ∧
  (st'.alpn = st.alpn ∨ "0010" ∈ st'.extensionsList)

/-! ## Theorems

First the helper layer: sanity evaluations, `Except` inversions, the hex
round trip, the version-table refinement, sort/maximum facts, and the loop
invariants. The claim theorems follow at the end. -/

theorem truncatedHash_empty : truncatedHash "" = "e3b0c44298fc" := by decide

theorem parse_bufOK : parseClientHello bufOK = .ok pOK := by decide

theorem ja4A_bufOK : ja4A pOK "tcp" = "t13d0104h2" := by decide

theorem except_bind_ok {ε α β : Type} {x : Except ε α} {f : α → Except ε β} {b : β}
    (h : x >>= f = .ok b) : ∃ a, x = .ok a ∧ f a = .ok b := by
  cases x with
  | error e => exact absurd h (by simp [Bind.bind, Except.bind])
  | ok a => exact ⟨a, rfl, by simpa [Bind.bind, Except.bind] using h⟩

theorem except_bind_error {ε α β : Type} {x : Except ε α} {f : α → Except ε β} {e : ε}
    (h : x >>= f = .error e) : x = .error e ∨ ∃ a, x = .ok a ∧ f a = .error e := by
  cases x with
  | error e' => left; simpa [Bind.bind, Except.bind] using h
  | ok a => right; exact ⟨a, rfl, by simpa [Bind.bind, Except.bind] using h⟩

theorem ofDigitsLE_replicate_zero : ∀ k, ofDigitsLE (List.replicate k 0) = 0
  | 0 => rfl
  | k + 1 => by
    simp [List.replicate, ofDigitsLE, List.foldr] at *
    simpa [ofDigitsLE] using ofDigitsLE_replicate_zero k

theorem ofDigitsLE_append_zeros (l : List Nat) (k : Nat) :
    ofDigitsLE (l ++ List.replicate k 0) = ofDigitsLE l := by
  induction l with
  | nil => simpa [ofDigitsLE] using ofDigitsLE_replicate_zero k
  | cons d ds ih => simp [ofDigitsLE, List.foldr_append] at *; omega

theorem hexDigitsLE_lt : ∀ fuel n d, d ∈ hexDigitsLE fuel n → d < 16
  | 0, _, _ => by simp [hexDigitsLE]
  | fuel + 1, n, d => by
    simp only [hexDigitsLE]
    split
    · simp
    · intro hd
      rcases List.mem_cons.mp hd with h | h
      · subst h; omega
      · exact hexDigitsLE_lt fuel (n / 16) d h

theorem hexCharVal_hexDigit : ∀ d, d < 16 → hexCharVal (hexDigit d) = d := by decide

theorem ofDigitsLE_hexDigitsLE : ∀ fuel n, n ≤ fuel → ofDigitsLE (hexDigitsLE fuel n) = n
  | 0, n, h => by
    have hn : n = 0 := by omega
    subst hn
    rfl
  | fuel + 1, n, h => by
    simp only [hexDigitsLE]
    split
    · simp [ofDigitsLE]; omega
    · have hrec : ofDigitsLE (hexDigitsLE fuel (n / 16)) = n / 16 :=
        ofDigitsLE_hexDigitsLE fuel (n / 16) (by omega)
      simp [ofDigitsLE] at hrec ⊢
      rw [hrec]
      omega

theorem natOfHexStr_jsToString16 (n : Nat) : natOfHexStr (jsToString16 n) = n := by
  by_cases h0 : n = 0
  · subst h0; decide
  · have hdig := hexDigitsLE_lt n n
    simp only [natOfHexStr, jsToString16, if_neg h0]
    show ofDigitsLE (((((hexDigitsLE n n).map hexDigit).reverse).reverse).map hexCharVal) = n
    rw [List.reverse_reverse, List.map_map]
    have hmap : ((hexDigitsLE n n).map (hexCharVal ∘ hexDigit)) = (hexDigitsLE n n).map id :=
      List.map_congr_left (fun d hd => hexCharVal_hexDigit d (hdig d hd))
    rw [hmap, List.map_id]
    exact ofDigitsLE_hexDigitsLE n n (Nat.le_refl n)

theorem natOfHexStr_hex4 (v : Nat) : natOfHexStr (hex4 v) = v := by
  have hbase := natOfHexStr_jsToString16 v
  simp only [natOfHexStr, hex4, padStart, String.data_append] at hbase ⊢
  show ofDigitsLE
      (((List.replicate (4 - (jsToString16 v).length) '0' ++ (jsToString16 v).data).reverse).map
        hexCharVal) = v
  rw [List.reverse_append, List.map_append, List.reverse_replicate, List.map_replicate]
  have hzero : hexCharVal '0' = 0 := by decide
  rw [hzero, ofDigitsLE_append_zeros]
  exact hbase

theorem hex4_inj {a b : Nat} (h : hex4 a = hex4 b) : a = b := by
  have := congrArg natOfHexStr h
  rwa [natOfHexStr_hex4, natOfHexStr_hex4] at this

theorem hexKey_inj {a b : Nat} (h : "0x" ++ hex4 a = "0x" ++ hex4 b) : a = b := by
  apply hex4_inj
  apply String.ext
  have hd := congrArg String.data h
  simp only [String.data_append] at hd
  exact List.append_cancel_left hd

theorem tlsMapper_spec (v : Nat) :
    (TLS_MAPPER ("0x" ++ hex4 v)).getD "00" = specVersionCode v := by
  by_cases h1 : v = 0x0002
  · subst h1; decide
  by_cases h2 : v = 0x0300
  · subst h2; decide
  by_cases h3 : v = 0x0301
  · subst h3; decide
  by_cases h4 : v = 0x0302
  · subst h4; decide
  by_cases h5 : v = 0x0303
  · subst h5; decide
  by_cases h6 : v = 0x0304
  · subst h6; decide
  have k1 : "0x" ++ hex4 v ≠ "0x0002" := fun h => h1 (hexKey_inj (h.trans (by decide)))
  have k2 : "0x" ++ hex4 v ≠ "0x0300" := fun h => h2 (hexKey_inj (h.trans (by decide)))
  have k3 : "0x" ++ hex4 v ≠ "0x0301" := fun h => h3 (hexKey_inj (h.trans (by decide)))
  have k4 : "0x" ++ hex4 v ≠ "0x0302" := fun h => h4 (hexKey_inj (h.trans (by decide)))
  have k5 : "0x" ++ hex4 v ≠ "0x0303" := fun h => h5 (hexKey_inj (h.trans (by decide)))
  have k6 : "0x" ++ hex4 v ≠ "0x0304" := fun h => h6 (hexKey_inj (h.trans (by decide)))
  simp [TLS_MAPPER, specVersionCode, k1, k2, k3, k4, k5, k6, h1, h2, h3, h4, h5, h6]

theorem insertLe_headD_natGe (a : Nat) (l : List Nat) :
    (insertLe natGeB a l).headD 0 = max a (l.headD 0) := by
  cases l with
  | nil => simp [insertLe]
  | cons b bs =>
    simp only [insertLe]
    split
    · next hle =>
      have : b ≤ a := Nat.le_of_ble_eq_true hle
      simp [Nat.max_eq_left this]
    · next hle =>
      have : ¬ b ≤ a := fun hc => hle (Nat.ble_eq_true_of_le hc)
      simp [List.headD, Nat.max_eq_right (by omega : a ≤ b)]

theorem sortLe_headD_natGe (l : List Nat) :
    (sortLe natGeB l).headD 0 = l.foldr max 0 := by
  induction l with
  | nil => rfl
  | cons a as ih =>
    show (insertLe natGeB a (sortLe natGeB as)).headD 0 = (a :: as).foldr max 0
    rw [insertLe_headD_natGe, ih]
    rfl

theorem le_foldr_max {x : Nat} : ∀ l : List Nat, x ∈ l → x ≤ l.foldr max 0
  | a :: as, h => by
    rcases List.mem_cons.mp h with h | h
    · simp [h, Nat.le_max_left]
    · exact Nat.le_trans (le_foldr_max as h) (by simp [Nat.le_max_right])

theorem foldr_max_le {m : Nat} : ∀ l : List Nat, (∀ x ∈ l, x ≤ m) → l.foldr max 0 ≤ m
  | [], _ => Nat.zero_le m
  | a :: as, h => by
    simp only [List.foldr]
    have h1 := h a (List.mem_cons_self a as)
    have h2 := foldr_max_le as (fun x hx => h x (List.mem_cons_of_mem a hx))
    omega

theorem highestOf_eq_max {l : List Nat} {m : Nat} (hm : m ∈ l)
    (hub : ∀ x ∈ l, x ≤ m) : highestOf l = m := by
  rw [highestOf, sortLe_headD_natGe]
  exact Nat.le_antisymm (foldr_max_le l hub) (le_foldr_max l hm)

theorem greaseFilterVal_some {v x : Nat} (h : greaseFilterVal v = some x) :
    x ∉ GREASE_VALUES ∧ x = v := by
  by_cases hg : v ∈ GREASE_VALUES
  · simp [greaseFilterVal, hg] at h
  · simp [greaseFilterVal, hg] at h
    exact ⟨h ▸ hg, h.symm⟩

theorem greaseFilterHex_some {v : Nat} {s : String} (h : greaseFilterHex v = some s) :
    v ∉ GREASE_VALUES ∧ s = hex4 v := by
  by_cases hg : v ∈ GREASE_VALUES
  · simp [greaseFilterHex, hg] at h
  · simp [greaseFilterHex, hg] at h
    exact ⟨hg, h.symm⟩

theorem u16Collect_mem {α : Type} (buf : List Nat) (f : Nat → Option α) :
    ∀ (remaining pos : Nat) (l : List α), u16Collect buf f pos remaining = .ok l →
      ∀ x ∈ l, ∃ v, f v = some x
  | 0, pos, l => by
    intro h x hx
    simp only [u16Collect] at h
    cases h
    simp at hx
  | 1, pos, l => by
    intro h x hx
    simp only [u16Collect] at h
    obtain ⟨v, hv, hp⟩ := except_bind_ok h
    have hl : (f v).toList = l := by simpa [Pure.pure, Except.pure] using hp
    subst hl
    cases hfv : f v with
    | none => simp [hfv] at hx
    | some a =>
      simp [hfv] at hx
      exact ⟨v, by rw [hfv, hx]⟩
  | remaining + 2, pos, l => by
    intro h x hx
    simp only [u16Collect] at h
    obtain ⟨v, hv, h2⟩ := except_bind_ok h
    obtain ⟨rest, hrest, hp⟩ := except_bind_ok h2
    have ihr := u16Collect_mem buf f remaining (pos + 2) rest hrest
    cases hfv : f v with
    | none =>
      have hl : rest = l := by simpa [Pure.pure, Except.pure, hfv] using hp
      exact ihr x (hl ▸ hx)
    | some a =>
      have hl : a :: rest = l := by simpa [Pure.pure, Except.pure, hfv] using hp
      subst hl
      rcases List.mem_cons.mp hx with h | h
      · exact ⟨v, by rw [hfv, h]⟩
      · exact ihr x h

theorem stateEvolves_refl (st : ExtState) : StateEvolves st st := by
  refine ⟨⟨[], by simp, by simp⟩, ⟨[], by simp, by simp⟩, ⟨[], by simp, by simp⟩, Or.inl rfl⟩

theorem stateEvolves_trans {s1 s2 s3 : ExtState}
    (h12 : StateEvolves s1 s2) (h23 : StateEvolves s2 s3) : StateEvolves s1 s3 := by
  obtain ⟨⟨tE1, hE1, pE1⟩, ⟨tS1, hS1, pS1⟩, ⟨tV1, hV1, pV1⟩, ha1⟩ := h12
  obtain ⟨⟨tE2, hE2, pE2⟩, ⟨tS2, hS2, pS2⟩, ⟨tV2, hV2, pV2⟩, ha2⟩ := h23
  refine ⟨⟨tE1 ++ tE2, by rw [hE2, hE1, List.append_assoc], ?_⟩,
          ⟨tS1 ++ tS2, by rw [hS2, hS1, List.append_assoc], ?_⟩,
          ⟨tV1 ++ tV2, by rw [hV2, hV1, List.append_assoc], ?_⟩, ?_⟩
  · intro s hs; rcases List.mem_append.mp hs with h | h
    · exact pE1 s h
    · exact pE2 s h
  · intro s hs; rcases List.mem_append.mp hs with h | h
    · exact pS1 s h
    · exact pS2 s h
  · intro v hv; rcases List.mem_append.mp hv with h | h
    · exact pV1 v h
    · exact pV2 v h
  · rcases ha2 with ha2 | ha2
    · rcases ha1 with ha1 | ha1
      · exact Or.inl (ha2.trans ha1)
      · exact Or.inr (hE2 ▸ List.mem_append_left tE2 ha1)
    · exact Or.inr ha2

theorem processExt_evolves {buf : List Nat} {ci extType : Nat} {st st' : ExtState}
    (hg : extType ∉ GREASE_VALUES) (h : processExt buf ci extType st = .ok st') :
    StateEvolves st st' := by
  have hElem : ∀ s ∈ [hex4 extType], ∃ v, v ∉ GREASE_VALUES ∧ s = hex4 v := by
    intro s hs
    simp at hs
    exact ⟨extType, hg, hs⟩
  simp only [processExt] at h
  split at h
  · -- SNI
    have hst : ({ st with
        extensionsList := st.extensionsList ++ [hex4 extType],
        sni := "d" } : ExtState) = st' := by
      simpa [Pure.pure, Except.pure] using h
    subst hst
    exact ⟨⟨[hex4 extType], rfl, hElem⟩, ⟨[], by simp, by simp⟩, ⟨[], by simp, by simp⟩,
           Or.inl rfl⟩
  split at h
  · -- ALPN
    obtain ⟨a, _, hp⟩ := except_bind_ok h
    have hst : ({ st with
        extensionsList := st.extensionsList ++ [hex4 extType],
        alpn := a } : ExtState) = st' := by
      simpa [Pure.pure, Except.pure] using hp
    subst hst
    refine ⟨⟨[hex4 extType], rfl, hElem⟩, ⟨[], by simp, by simp⟩, ⟨[], by simp, by simp⟩,
            Or.inr ?_⟩
    next hT _ =>
    simp [hT]
    right
    decide
  split at h
  · -- Supported Versions
    obtain ⟨svLen, _, h2⟩ := except_bind_ok h
    obtain ⟨vs, hvs, hp⟩ := except_bind_ok h2
    have hst : ({ st with
        extensionsList := st.extensionsList ++ [hex4 extType],
        supportedVersions := st.supportedVersions ++ vs } : ExtState) = st' := by
      simpa [Pure.pure, Except.pure] using hp
    subst hst
    refine ⟨⟨[hex4 extType], rfl, hElem⟩, ⟨[], by simp, by simp⟩, ⟨vs, rfl, ?_⟩, Or.inl rfl⟩
    intro v hv
    obtain ⟨u, hu⟩ := u16Collect_mem buf greaseFilterVal svLen (ci + 1) vs hvs v hv
    obtain ⟨hnv, hveq⟩ := greaseFilterVal_some hu
    exact hnv
  split at h
  · -- Signature Algorithms
    obtain ⟨saLen, _, h2⟩ := except_bind_ok h
    obtain ⟨algs, halgs, hp⟩ := except_bind_ok h2
    have hst : ({ st with
        extensionsList := st.extensionsList ++ [hex4 extType],
        signatureAlgorithms := st.signatureAlgorithms ++ algs } : ExtState) = st' := by
      simpa [Pure.pure, Except.pure] using hp
    subst hst
    refine ⟨⟨[hex4 extType], rfl, hElem⟩, ⟨algs, rfl, ?_⟩, ⟨[], by simp, by simp⟩, Or.inl rfl⟩
    intro s hs
    obtain ⟨u, hu⟩ := u16Collect_mem buf greaseFilterHex saLen (ci + 2) algs halgs s hs
    obtain ⟨hnu, hseq⟩ := greaseFilterHex_some hu
    exact ⟨u, hnu, hseq⟩
  · -- other extension types
    have hst : ({ st with extensionsList := st.extensionsList ++ [hex4 extType] } : ExtState)
        = st' := by
      simpa [Pure.pure, Except.pure] using h
    subst hst
    exact ⟨⟨[hex4 extType], rfl, hElem⟩, ⟨[], by simp, by simp⟩, ⟨[], by simp, by simp⟩,
           Or.inl rfl⟩

theorem extLoop_evolves (buf : List Nat) (endI : Nat) :
    ∀ (fuel ci : Nat) (st st' : ExtState),
      extLoop buf endI fuel ci st = .ok st' → StateEvolves st st'
  | 0, ci, st, st' => by
    intro h
    simp [extLoop] at h
  | fuel + 1, ci, st, st' => by
    intro h
    simp only [extLoop] at h
    split at h
    · obtain ⟨extType, hT, h⟩ := except_bind_ok h
      obtain ⟨extLength, hL, h⟩ := except_bind_ok h
      by_cases hg : extType ∈ GREASE_VALUES
      · rw [if_pos hg] at h
        obtain ⟨stMid, hMid, h⟩ := except_bind_ok h
        have hsm : st = stMid := by simpa [Pure.pure, Except.pure] using hMid
        exact hsm ▸ extLoop_evolves buf endI fuel (ci + 4 + extLength) stMid st' h
      · rw [if_neg hg] at h
        obtain ⟨stMid, hMid, h⟩ := except_bind_ok h
        exact stateEvolves_trans (processExt_evolves hg hMid)
          (extLoop_evolves buf endI fuel (ci + 4 + extLength) stMid st' h)
    · have : st = st' := by simpa using h
      exact this ▸ stateEvolves_refl st

theorem parseClientHello_fields {buffer : List Nat} {p : ParsedClientHello}
    (h : parseClientHello buffer = .ok p) :
    (∃ pos len, u16Collect buffer greaseFilterHex pos len = .ok p.cipherSuites) ∧
    (∃ endI fuel ci st, extLoop buffer endI fuel ci
        { extensionsList := [], sni := "i", alpn := "00",
          signatureAlgorithms := [], supportedVersions := [] } = .ok st ∧
      p.extensionsList = st.extensionsList ∧ p.alpn = st.alpn ∧
      p.signatureAlgorithms = st.signatureAlgorithms ∧
      p.supportedVersions = st.supportedVersions) := by
  simp only [parseClientHello] at h
  obtain ⟨lv, h1, h⟩ := except_bind_ok h
  obtain ⟨sid, h2, h⟩ := except_bind_ok h
  obtain ⟨csl, h3, h⟩ := except_bind_ok h
  obtain ⟨cs, h4, h⟩ := except_bind_ok h
  obtain ⟨cml, h5, h⟩ := except_bind_ok h
  obtain ⟨extl, h6, h⟩ := except_bind_ok h
  obtain ⟨st, h7, h⟩ := except_bind_ok h
  have hp : ({ legacyVersion := lv, cipherSuites := cs,
               extensionsList := st.extensionsList, sni := st.sni, alpn := st.alpn,
               signatureAlgorithms := st.signatureAlgorithms,
               supportedVersions := st.supportedVersions } : ParsedClientHello) = p := by
    simpa [Pure.pure, Except.pure] using h
  subst hp
  exact ⟨⟨_, _, h4⟩, ⟨_, _, _, st, h7, rfl, rfl, rfl, rfl⟩⟩

theorem pure_ne_fuelOut {α : Type} (a : α) :
    (pure a : Except JsErr α) ≠ .error .fuelOut := by
  simp [Pure.pure, Except.pure]

theorem bind_ne_fuelOut {α β : Type} {x : Except JsErr α} {f : α → Except JsErr β}
    (hx : x ≠ .error .fuelOut) (hf : ∀ a, f a ≠ .error .fuelOut) :
    x >>= f ≠ .error .fuelOut := by
  intro h
  rcases except_bind_error h with h | ⟨a, _, h⟩
  · exact hx h
  · exact hf a h

theorem getUint8_ne_fuelOut (buf : List Nat) (i : Nat) :
    getUint8 buf i ≠ .error .fuelOut := by
  simp only [getUint8]
  split <;> simp

theorem getUint16_ne_fuelOut (buf : List Nat) (i : Nat) :
    getUint16 buf i ≠ .error .fuelOut := by
  simp only [getUint16]
  apply bind_ne_fuelOut (getUint8_ne_fuelOut buf i)
  intro b0
  apply bind_ne_fuelOut (getUint8_ne_fuelOut buf (i + 1))
  intro b1
  exact pure_ne_fuelOut _

theorem u16Collect_ne_fuelOut {α : Type} (buf : List Nat) (f : Nat → Option α) :
    ∀ (remaining pos : Nat), u16Collect buf f pos remaining ≠ .error .fuelOut
  | 0, pos => by simp [u16Collect]
  | 1, pos => by
    simp only [u16Collect]
    apply bind_ne_fuelOut (getUint16_ne_fuelOut buf pos)
    intro v
    exact pure_ne_fuelOut _
  | remaining + 2, pos => by
    simp only [u16Collect]
    apply bind_ne_fuelOut (getUint16_ne_fuelOut buf pos)
    intro v
    apply bind_ne_fuelOut (u16Collect_ne_fuelOut buf f remaining (pos + 2))
    intro rest
    exact pure_ne_fuelOut _

theorem alpnCompute_ne_fuelOut (buf : List Nat) (ci : Nat) (prev : String) :
    alpnCompute buf ci prev ≠ .error .fuelOut := by
  simp only [alpnCompute]
  apply bind_ne_fuelOut (getUint16_ne_fuelOut buf ci)
  intro n
  split
  · apply bind_ne_fuelOut (getUint8_ne_fuelOut buf (ci + 2))
    intro plen
    split
    · apply bind_ne_fuelOut (getUint8_ne_fuelOut buf (ci + 2 + 1))
      intro f0
      apply bind_ne_fuelOut (getUint8_ne_fuelOut buf (ci + 2 + 1 + plen - 1))
      intro l0
      split <;> exact pure_ne_fuelOut _
    · exact pure_ne_fuelOut _
  · exact pure_ne_fuelOut _

theorem processExt_ne_fuelOut (buf : List Nat) (ci extType : Nat) (st : ExtState) :
    processExt buf ci extType st ≠ .error .fuelOut := by
  simp only [processExt]
  split
  · exact pure_ne_fuelOut _
  split
  · apply bind_ne_fuelOut (alpnCompute_ne_fuelOut buf ci _)
    intro a
    exact pure_ne_fuelOut _
  split
  · apply bind_ne_fuelOut (getUint8_ne_fuelOut buf ci)
    intro svLen
    apply bind_ne_fuelOut (u16Collect_ne_fuelOut buf greaseFilterVal svLen (ci + 1))
    intro vs
    exact pure_ne_fuelOut _
  split
  · apply bind_ne_fuelOut (getUint16_ne_fuelOut buf ci)
    intro saLen
    apply bind_ne_fuelOut (u16Collect_ne_fuelOut buf greaseFilterHex saLen (ci + 2))
    intro algs
    exact pure_ne_fuelOut _
  · exact pure_ne_fuelOut _

theorem extLoop_ne_fuelOut (buf : List Nat) (endI : Nat) :
    ∀ (fuel ci : Nat) (st : ExtState), endI - ci < fuel →
      extLoop buf endI fuel ci st ≠ .error .fuelOut
  | 0, ci, st => by omega
  | fuel + 1, ci, st => by
    intro hlt
    simp only [extLoop]
    split
    · next hci =>
      apply bind_ne_fuelOut (getUint16_ne_fuelOut buf ci)
      intro extType
      apply bind_ne_fuelOut (getUint16_ne_fuelOut buf (ci + 2))
      intro extLength
      by_cases hg : extType ∈ GREASE_VALUES
      · rw [if_pos hg]
        apply bind_ne_fuelOut (pure_ne_fuelOut st)
        intro st2
        exact extLoop_ne_fuelOut buf endI fuel (ci + 4 + extLength) st2 (by omega)
      · rw [if_neg hg]
        apply bind_ne_fuelOut (processExt_ne_fuelOut buf (ci + 4) extType st)
        intro st2
        exact extLoop_ne_fuelOut buf endI fuel (ci + 4 + extLength) st2 (by omega)
    · simp

theorem parseClientHello_ne_fuelOut (buffer : List Nat) :
    parseClientHello buffer ≠ .error .fuelOut := by
  simp only [parseClientHello]
  apply bind_ne_fuelOut (getUint16_ne_fuelOut buffer 4)
  intro lv
  apply bind_ne_fuelOut (getUint8_ne_fuelOut buffer _)
  intro sid
  apply bind_ne_fuelOut (getUint16_ne_fuelOut buffer _)
  intro csl
  apply bind_ne_fuelOut (u16Collect_ne_fuelOut buffer greaseFilterHex csl _)
  intro cs
  apply bind_ne_fuelOut (getUint8_ne_fuelOut buffer _)
  intro cml
  apply bind_ne_fuelOut (getUint16_ne_fuelOut buffer _)
  intro extl
  apply bind_ne_fuelOut (extLoop_ne_fuelOut buffer _ (extl + 1) _ _ (by omega))
  intro st
  exact pure_ne_fuelOut _

/-! ## Claim theorems -/

/-- C2: the 2-character version code is computed from the numeric maximum of
the GREASE-filtered supported-versions list when that list is non-empty, and
from the legacy version field otherwise, in both cases through the fixed
table 0x0002→"s2", 0x0300→"s3", 0x0301→"10", 0x0302→"11", 0x0303→"12",
0x0304→"13" with "00" for values absent from the table; in particular
supported versions {0x0303, 0x0304} give "13" regardless of the legacy
version. -/
theorem version_code_resolution :
    ∀ (p : ParsedClientHello) (m : Nat),
      (p.supportedVersions = [] → ja4Version p = specVersionCode p.legacyVersion)
      ∧ (m ∈ p.supportedVersions → (∀ v ∈ p.supportedVersions, v ≤ m) →
          ja4Version p = specVersionCode m)
      ∧ (p.supportedVersions = [0x0303, 0x0304] → ja4Version p = "13") := by
  intro p m
  refine ⟨?_, ?_, ?_⟩
  · intro h
    simp only [ja4Version, h, List.length_nil, Nat.lt_irrefl, if_false]
    exact tlsMapper_spec p.legacyVersion
  · intro hm hub
    have hlen : 0 < p.supportedVersions.length :=
      List.length_pos.mpr (fun hnil => by simp [hnil] at hm)
    simp only [ja4Version, if_pos hlen, highestOf_eq_max hm hub]
    exact tlsMapper_spec m
  · intro h
    have hlen : (0 : Nat) < [0x0303, 0x0304].length := by decide
    simp only [ja4Version, h, if_pos hlen]
    decide

theorem version_code_resolution_witness :
    ja4Version { legacyVersion := 0x0301, cipherSuites := [], extensionsList := [],
                 sni := "i", alpn := "00", signatureAlgorithms := [],
                 supportedVersions := [0x0303, 0x0304] } = "13" :=
  (version_code_resolution _ 0).2.2 rfl

/-- C9: an absent or empty ClientHello input makes the orchestrator a benign
no-op: it returns no fingerprint, raises no error, and leaves the
destination variable unset (the guard returns before any decode or parse
runs). -/
theorem no_data_noop :
    ∀ req : EWRequest,
      req.tlsClientHello = none ∨ req.tlsClientHello = some "" →
      onClientRequest req = .ok { returned := none, ja4Variable := none } := by
  intro req h
  rcases h with h | h <;> simp [onClientRequest, h, truthyStr]

theorem no_data_noop_witness :
    onClientRequest { tlsClientHello := none, quicVersion := none }
      = .ok { returned := none, ja4Variable := none } :=
  no_data_noop _ (Or.inl rfl)

/-- C10: an empty GREASE-filtered cipher list makes component `b` the
truncated SHA-256 of the empty string, "e3b0c44298fc", and likewise
component `c` when the filtered extension list is empty and no signature
algorithms are present — no fixed zero placeholder is substituted. -/
theorem empty_list_hash :
    truncatedHash "" = "e3b0c44298fc"
    ∧ (∀ p : ParsedClientHello, p.cipherSuites = [] → ja4B p = "e3b0c44298fc")
    ∧ (∀ p : ParsedClientHello,
        p.extensionsList.filter (fun ext => !(ext == "0000") && !(ext == "0010")) = [] →
        p.signatureAlgorithms = [] → ja4C p = "e3b0c44298fc") := by
  refine ⟨truncatedHash_empty, ?_, ?_⟩
  · intro p h
    simp only [ja4B, h]
    exact truncatedHash_empty
  · intro p hf hs
    simp only [ja4C, ja4ExtHashInput, hf, hs, List.length_nil, Nat.lt_irrefl, if_false]
    exact truncatedHash_empty

theorem empty_list_hash_witness :
    ja4B { legacyVersion := 0, cipherSuites := [], extensionsList := [], sni := "i",
           alpn := "00", signatureAlgorithms := [], supportedVersions := [] } = "e3b0c44298fc" :=
  empty_list_hash.2.1 _ rfl

/-- C6: no GREASE value ever appears in the parsed cipher-suite list,
extension-type list, signature-algorithm list (all stored as 4-hex
renderings) or supported-versions list of a successfully parsed
ClientHello. -/
theorem grease_never_in_parsed :
    ∀ (buffer : List Nat) (p : ParsedClientHello) (g : Nat),
      parseClientHello buffer = .ok p → g ∈ GREASE_VALUES →
      hex4 g ∉ p.cipherSuites ∧ hex4 g ∉ p.extensionsList ∧
      hex4 g ∉ p.signatureAlgorithms ∧ g ∉ p.supportedVersions := by
  intro buffer p g hp hg
  obtain ⟨⟨pos, len, hcs⟩, ⟨endI, fuel, ci, st, hloop, he, ha, hs, hv⟩⟩ :=
    parseClientHello_fields hp
  obtain ⟨⟨tE, htE, pE⟩, ⟨tS, htS, pS⟩, ⟨tV, htV, pV⟩, _⟩ :=
    extLoop_evolves buffer endI fuel ci _ st hloop
  simp only [List.nil_append] at htE htS htV
  refine ⟨?_, ?_, ?_, ?_⟩
  · intro hin
    obtain ⟨v, hv'⟩ := u16Collect_mem buffer greaseFilterHex len pos _ hcs _ hin
    obtain ⟨hnv, heq⟩ := greaseFilterHex_some hv'
    exact hnv (hex4_inj heq ▸ hg)
  · intro hin
    rw [he, htE] at hin
    obtain ⟨v, hnv, heq⟩ := pE _ hin
    exact hnv (hex4_inj heq ▸ hg)
  · intro hin
    rw [hs, htS] at hin
    obtain ⟨v, hnv, heq⟩ := pS _ hin
    exact hnv (hex4_inj heq ▸ hg)
  · intro hin
    rw [hv, htV] at hin
    exact pV _ hin hg

theorem grease_never_in_parsed_witness :
    hex4 0x0a0a ∉ pOK.cipherSuites ∧ hex4 0x0a0a ∉ pOK.extensionsList ∧
    hex4 0x0a0a ∉ pOK.signatureAlgorithms ∧ 0x0a0a ∉ pOK.supportedVersions :=
  grease_never_in_parsed bufOK pOK 0x0a0a parse_bufOK (by decide)

/-- C3: the ALPN code is "00" when the ALPN extension is absent, when its
protocol list is empty, or when the first protocol length is 0; when the
first protocol's first and last bytes are both printable ASCII (0x20–0x7E)
it is those two characters; otherwise it is the hex pair ⟨high nibble of
first byte, low nibble of last byte⟩. -/
theorem alpn_code_rules :
    (∀ (buffer : List Nat) (p : ParsedClientHello),
        parseClientHello buffer = .ok p → "0010" ∉ p.extensionsList → p.alpn = "00")
    ∧ (∀ (buf : List Nat) (i : Nat),
        getUint16 buf i = .ok 0 → alpnCompute buf i "00" = .ok "00")
    ∧ (∀ (buf : List Nat) (i n : Nat),
        getUint16 buf i = .ok n → getUint8 buf (i + 2) = .ok 0 →
        alpnCompute buf i "00" = .ok "00")
    ∧ (∀ (buf : List Nat) (i : Nat) (prev : String) (n plen f0 l0 : Nat),
        getUint16 buf i = .ok n → 0 < n →
        getUint8 buf (i + 2) = .ok plen → 0 < plen →
        getUint8 buf (i + 2 + 1) = .ok f0 →
        getUint8 buf (i + 2 + 1 + plen - 1) = .ok l0 →
        isPrintableAscii f0 = true → isPrintableAscii l0 = true →
        alpnCompute buf i prev = .ok (String.mk [Char.ofNat f0, Char.ofNat l0]))
    ∧ (∀ (buf : List Nat) (i : Nat) (prev : String) (n plen f0 l0 : Nat),
        getUint16 buf i = .ok n → 0 < n →
        getUint8 buf (i + 2) = .ok plen → 0 < plen →
        getUint8 buf (i + 2 + 1) = .ok f0 →
        getUint8 buf (i + 2 + 1 + plen - 1) = .ok l0 →
        (isPrintableAscii f0 && isPrintableAscii l0) = false →
        alpnCompute buf i prev
          = .ok (jsToString16 ((f0 >>> 4) &&& 0x0F) ++ jsToString16 (l0 &&& 0x0F))) := by
  refine ⟨?_, ?_, ?_, ?_, ?_⟩
  · intro buffer p hp hnin
    obtain ⟨_, ⟨endI, fuel, ci, st, hloop, he, ha, _, _⟩⟩ := parseClientHello_fields hp
    obtain ⟨_, _, _, halpn⟩ := extLoop_evolves buffer endI fuel ci _ st hloop
    rcases halpn with h | h
    · rw [ha, h]
    · exact absurd (he ▸ h) hnin
  · intro buf i h16
    simp [alpnCompute, h16, Bind.bind, Except.bind, Pure.pure, Except.pure]
  · intro buf i n h16 h8
    simp only [alpnCompute, h16, Bind.bind, Except.bind]
    by_cases hn : i + 2 < i + 2 + n
    · rw [if_pos hn]
      simp [h8, Bind.bind, Except.bind, Pure.pure, Except.pure]
    · rw [if_neg hn]
      simp [Pure.pure, Except.pure]
  · intro buf i prev n plen f0 l0 h16 hn h8 hplen hf hl hpf hpl
    simp only [alpnCompute, h16, Bind.bind, Except.bind]
    rw [if_pos (by omega : i + 2 < i + 2 + n)]
    simp only [h8, Bind.bind, Except.bind]
    rw [if_pos hplen]
    simp only [hf, hl, Bind.bind, Except.bind]
    rw [if_pos (by simp [hpf, hpl] : (isPrintableAscii f0 && isPrintableAscii l0) = true)]
    simp [Pure.pure, Except.pure]
  · intro buf i prev n plen f0 l0 h16 hn h8 hplen hf hl hnp
    simp only [alpnCompute, h16, Bind.bind, Except.bind]
    rw [if_pos (by omega : i + 2 < i + 2 + n)]
    simp only [h8, Bind.bind, Except.bind]
    rw [if_pos hplen]
    simp only [hf, hl, Bind.bind, Except.bind]
    rw [if_neg (by simp [hnp] : ¬ (isPrintableAscii f0 && isPrintableAscii l0) = true)]
    simp [Pure.pure, Except.pure]

theorem alpn_code_rules_witness :
    alpnCompute [0, 3, 2, 104, 50] 0 "00" = .ok "h2" := by
  have h := alpn_code_rules.2.2.2.1 [0, 3, 2, 104, 50] 0 "00" 3 2 104 50 rfl
    (by decide) rfl (by decide) rfl rfl (by decide) (by decide)
  exact h.trans (by decide)

/-- C5: component `b` is the truncated hash of the GREASE-filtered cipher
values rendered as 4-hex strings, sorted lexicographically as strings and
joined with commas; string sorting puts "00ff" before "0301". -/
theorem cipher_hash_spec :
    ∀ (buffer : List Nat) (proto : String) (p : ParsedClientHello),
      parseClientHello buffer = .ok p →
      (getJA4Fingerprint buffer proto = .ok (ja4A p proto ++ "_" ++
          truncatedHash (String.intercalate "," (sortLe strLeB p.cipherSuites))
          ++ "_" ++ ja4C p))
      ∧ (∀ x ∈ p.cipherSuites, ∃ v, v ∉ GREASE_VALUES ∧ x = hex4 v)
      ∧ sortLe strLeB ["0301", "00ff"] = ["00ff", "0301"] := by
  intro buffer proto p hp
  refine ⟨?_, ?_, by decide⟩
  · simp only [getJA4Fingerprint, hp, Bind.bind, Except.bind, Pure.pure, Except.pure, ja4B]
  · intro x hx
    obtain ⟨⟨pos, len, hcs⟩, _⟩ := parseClientHello_fields hp
    obtain ⟨v, hv⟩ := u16Collect_mem buffer greaseFilterHex len pos _ hcs x hx
    obtain ⟨hnv, hxeq⟩ := greaseFilterHex_some hv
    exact ⟨v, hnv, hxeq⟩

theorem cipher_hash_spec_witness :
    getJA4Fingerprint bufOK "tcp" = .ok (ja4A pOK "tcp" ++ "_" ++
      truncatedHash (String.intercalate "," (sortLe strLeB pOK.cipherSuites))
      ++ "_" ++ ja4C pOK) :=
  (cipher_hash_spec bufOK "tcp" pOK parse_bufOK).1

/-- C4: the input hashed into component `c` is the GREASE-filtered extension
type codes minus "0000" (SNI) and "0010" (ALPN) — with no other
deduplication — sorted lexicographically as strings and comma-joined, with
"_" plus the comma-joined wire-order signature algorithms appended exactly
when that list is non-empty. -/
theorem extension_hash_spec :
    ∀ (buffer : List Nat) (proto : String) (p : ParsedClientHello),
      parseClientHello buffer = .ok p →
      getJA4Fingerprint buffer proto = .ok (ja4A p proto ++ "_" ++ ja4B p ++ "_" ++
        truncatedHash (String.intercalate ","
            (sortLe strLeB (p.extensionsList.filter
              (fun e => decide (e ≠ "0000") && decide (e ≠ "0010"))))
          ++ if p.signatureAlgorithms = [] then ""
             else "_" ++ String.intercalate "," p.signatureAlgorithms)) := by
  intro buffer proto p hp
  have hfil : (fun e : String => !(e == "0000") && !(e == "0010"))
      = (fun e => decide (e ≠ "0000") && decide (e ≠ "0010")) := by
    funext e
    by_cases h1 : e = "0000" <;> by_cases h2 : e = "0010" <;> simp [h1, h2]
  have hsig : ja4ExtHashInput p = String.intercalate ","
      (sortLe strLeB (p.extensionsList.filter
        (fun e => decide (e ≠ "0000") && decide (e ≠ "0010"))))
      ++ if p.signatureAlgorithms = [] then ""
         else "_" ++ String.intercalate "," p.signatureAlgorithms := by
    simp only [ja4ExtHashInput, hfil]
    by_cases hs : p.signatureAlgorithms = []
    · rw [if_pos hs, hs]
      simp
    · rw [if_pos (List.length_pos.mpr hs), if_neg hs]
  simp only [getJA4Fingerprint, hp, Bind.bind, Except.bind, Pure.pure, Except.pure, ja4C, hsig]

theorem extension_hash_spec_witness :
    getJA4Fingerprint bufOK "tcp" = .ok (ja4A pOK "tcp" ++ "_" ++ ja4B pOK ++ "_" ++
      truncatedHash (String.intercalate ","
          (sortLe strLeB (pOK.extensionsList.filter
            (fun e => decide (e ≠ "0000") && decide (e ≠ "0010"))))
        ++ if pOK.signatureAlgorithms = [] then ""
           else "_" ++ String.intercalate "," pOK.signatureAlgorithms)) :=
  extension_hash_spec bufOK "tcp" pOK parse_bufOK

/-- C7 (counterexample): a parsed ClientHello with 100 GREASE-filtered
cipher suites renders its cipher count in component `a` as the 3 characters
"100", not as exactly 2 decimal digits — `padStart(2, '0')` pads but never
truncates. -/
theorem counts_width_counterexample :
    (parseClientHello bufC7).map
        (fun p => ((ja4NumCiphers p).length, ja4NumCiphers p, p.cipherSuites.length))
      = .ok (3, "100", 100) := by decide

/-- C7 (amended): the cipher and extension counts embedded in component `a`
are the GREASE-filtered list lengths rendered by
`toString().padStart(2, '0')`: exactly 2 zero-padded decimal digits for all
lengths up to 99 (including 0 → "00" and unpadded values ≥ 10), while a
length of 100 renders as the 3-character "100". -/
theorem counts_width_amended :
    ∀ (p : ParsedClientHello) (proto : String),
      (p.cipherSuites.length ≤ 99 → (ja4NumCiphers p).length = 2)
      ∧ (p.extensionsList.length ≤ 99 → (ja4NumExtensions p).length = 2)
      ∧ (p.cipherSuites = [] → ja4NumCiphers p = "00")
      ∧ (p.extensionsList = [] → ja4NumExtensions p = "00")
      ∧ (10 ≤ p.cipherSuites.length → p.cipherSuites.length ≤ 99 →
          ja4NumCiphers p = Nat.repr p.cipherSuites.length)
      ∧ (p.cipherSuites.length = 100 → ja4NumCiphers p = "100")
      ∧ ja4A p proto = (if proto = "quic" then "q" else "t") ++ ja4Version p ++ p.sni
          ++ ja4NumCiphers p ++ ja4NumExtensions p ++ p.alpn := by
  intro p proto
  have key : ∀ n, n < 100 → (padStart (Nat.repr n) 2 '0').length = 2 := by decide
  have key2 : ∀ n, n < 100 → 10 ≤ n → padStart (Nat.repr n) 2 '0' = Nat.repr n := by decide
  refine ⟨fun h => key _ (by omega), fun h => key _ (by omega), ?_, ?_,
          fun h1 h2 => key2 _ (by omega) h1, ?_, rfl⟩
  · intro h
    simp only [ja4NumCiphers, h, List.length_nil]
    decide
  · intro h
    simp only [ja4NumExtensions, h, List.length_nil]
    decide
  · intro h
    simp only [ja4NumCiphers, h]
    decide

theorem counts_width_amended_witness :
    (ja4NumCiphers pOK).length = 2 ∧ ja4NumCiphers pOK = "01" :=
  ⟨(counts_width_amended pOK "tcp").1 (by decide), by decide⟩

/-- C8 (counterexample): "AAAA" decodes to the 3-byte buffer [0, 0, 0], on
which the parse stage fails, yet `onClientRequest` surfaces no error to its
caller: the `catch` block swallows the exception and the function returns
`undefined` with the fingerprint variable unset. -/
theorem orchestrator_swallows_parse_error :
    base64toUint8Array "AAAA" = .ok [0, 0, 0]
    ∧ (getJA4Fingerprint [0, 0, 0] "tcp").isOk = false
    ∧ onClientRequest { tlsClientHello := some "AAAA", quicVersion := none }
        = .ok { returned := none, ja4Variable := none } := by decide

/-- C8 (amended): on a non-empty input, a decode-stage error propagates to
the orchestrator's caller (the decode runs outside `try`); a parse/encode
error is caught and logged, the orchestrator returns no fingerprint and
leaves the destination variable unset, raising nothing to the caller; on
success it returns the fingerprint and stores it in the variable. -/
theorem orchestrator_stage_errors :
    ∀ (req : EWRequest) (s : String),
      req.tlsClientHello = some s → s ≠ "" →
      (∀ e, base64toUint8Array s = .error e → onClientRequest req = .error e)
      ∧ (∀ buffer fp, base64toUint8Array s = .ok buffer →
          getJA4Fingerprint buffer (if truthyStr req.quicVersion then "quic" else "tcp")
            = .ok fp →
          onClientRequest req = .ok { returned := some fp, ja4Variable := some fp })
      ∧ (∀ buffer e, base64toUint8Array s = .ok buffer →
          getJA4Fingerprint buffer (if truthyStr req.quicVersion then "quic" else "tcp")
            = .error e →
          onClientRequest req = .ok { returned := none, ja4Variable := none }) := by
  intro req s hreq hs
  have ht : truthyStr req.tlsClientHello = true := by
    rw [hreq]
    simp [truthyStr, hs]
  have hgetD : req.tlsClientHello.getD "" = s := by
    rw [hreq]
    rfl
  refine ⟨?_, ?_, ?_⟩
  · intro e he
    simp [onClientRequest, ht, hgetD, he, Bind.bind, Except.bind]
  · intro buffer fp hdec hok
    simp [onClientRequest, ht, hgetD, hdec, hok, Bind.bind, Except.bind]
  · intro buffer e hdec herr
    simp [onClientRequest, ht, hgetD, hdec, herr, Bind.bind, Except.bind]

theorem orchestrator_stage_errors_witness :
    onClientRequest { tlsClientHello := some "AAAA", quicVersion := none }
      = .ok { returned := none, ja4Variable := none } :=
  (orchestrator_stage_errors { tlsClientHello := some "AAAA", quicVersion := none }
    "AAAA" rfl (by decide)).2.2 [0, 0, 0] .rangeError (by decide) (by decide)

/-- C1 (code evaluation): `bufC1` carries an extensions block of declared
length 4 whose single record declares a 5-byte payload, overrunning the
block — a malformed length field. The parser does not fail with a
ParseError: it silently accepts the buffer and produces a fingerprint
(the cursor jumps past `extensionsEndIndex` and the loop exits), so the
spec's required bounds-checking is absent from the code. -/
theorem malformed_length_silent_accept :
    parseClientHello bufC1 = .ok
      { legacyVersion := 0x0303, cipherSuites := ["1301"], extensionsList := ["002d"],
        sni := "i", alpn := "00", signatureAlgorithms := [], supportedVersions := [] }
    ∧ (getJA4Fingerprint bufC1 "tcp").isOk = true := by decide
